import Mathlib

/-!
Verification of the steady-state solver module (qutip/steadystate.py).

The module is shallowly embedded over ℚ: matrices with rational entries model
the real-valued special case of the complex matrices the code manipulates
(every code path treats real inputs identically, `conj` acting as the
identity on them, so over ℚ the conjugate transpose is the transpose and
`star` is the identity).  External linear-algebra primitives (LU solve,
Krylov solvers, SVD) are modelled by their numeric contracts, passed in as
explicit arguments or abstract step functions.
-/

namespace Steadystate

open Matrix

/-! ## Post-processing of the solution paths (claim C1)

Each `steadystate` method path ends with its own post-processing of the
reshaped solution matrix `data = vec2mat(v)`.  The functions below embed
those final lines, acting on the already-reshaped matrix. -/

/-- Hermitization by averaging with the conjugate transpose, the operation the
spec prescribes for every path: `0.5 * (data + data.conj().T)`. -/
def hermitize {n : ℕ} (X : Matrix (Fin n) (Fin n) ℚ) : Matrix (Fin n) (Fin n) ℚ :=
  (2⁻¹ : ℚ) • (X + Xᴴ)

/-- Post-processing of `_steadystate_direct_sparse` (lines 390-391) and
`_steadystate_direct_dense` (lines 419-420): `data = 0.5 * (data + data.conj().T)`. -/
def steadystate_direct_post {n : ℕ} (X : Matrix (Fin n) (Fin n) ℚ) :
    Matrix (Fin n) (Fin n) ℚ :=
  (2⁻¹ : ℚ) • (X + Xᴴ)

/-- Post-processing of `_steadystate_iterative` (lines 603-604), identical to the
direct paths: `data = 0.5 * (data + data.conj().T)`. -/
def steadystate_iterative_post {n : ℕ} (X : Matrix (Fin n) (Fin n) ℚ) :
    Matrix (Fin n) (Fin n) ℚ :=
  (2⁻¹ : ℚ) • (X + Xᴴ)

/-- Post-processing of `_steadystate_eigen` (lines 462-468): Hermitize, then
divide by the trace (`out/out.tr()`). -/
def steadystate_eigen_post {n : ℕ} (X : Matrix (Fin n) (Fin n) ℚ) :
    Matrix (Fin n) (Fin n) ℚ :=
  let out := (2⁻¹ : ℚ) • (X + Xᴴ)
  out.trace⁻¹ • out

/-- Post-processing of `_steadystate_svd_dense` (lines 641-642): the reshaped
null vector is only divided by its trace, `rhoss / rhoss.tr()`; no
Hermitization step is performed on this path. -/
def steadystate_svd_post {n : ℕ} (X : Matrix (Fin n) (Fin n) ℚ) :
    Matrix (Fin n) (Fin n) ℚ :=
  X.trace⁻¹ • X

/-- Post-processing of `_steadystate_power` (lines 790-798): for a superoperator
the vector is divided by the diagonal sum (`v / sum(trow.dot(v))`, the trace of
its reshape), then the reshaped matrix is Hermitized. -/
def steadystate_power_post {n : ℕ} (X : Matrix (Fin n) (Fin n) ℚ) :
    Matrix (Fin n) (Fin n) ℚ :=
  let data := X.trace⁻¹ • X
  (2⁻¹ : ℚ) • (data + dataᴴ)

/-- The concrete reshaped SVD null vector used to refute claim C1: a real
matrix of trace 1 that is not symmetric (row 0 is all ones, row 1 is zero). -/
def svdCounterMat : Matrix (Fin 2) (Fin 2) ℚ :=
  Matrix.of fun i _ => if i = 0 then 1 else 0

lemma svdCounterMat_trace : svdCounterMat.trace = 1 := by
  simp [Matrix.trace, svdCounterMat, Fin.sum_univ_two, Matrix.diag]

/-- C1 counterexample: on the SVD path the returned matrix is not the
Hermitization of anything — the code returns `vec2mat(ns[:,0]) / tr` unchanged,
and for a non-symmetric null-vector reshape of trace 1 the returned matrix
differs from its own Hermitization (so it is not Hermitian), refuting the
claim that every method path Hermitizes the result. -/
theorem C1_counterexample :
    steadystate_svd_post svdCounterMat ≠ hermitize (steadystate_svd_post svdCounterMat) := by
  intro h
  have h01 := congrFun (congrFun h 0) 1
  simp [steadystate_svd_post, hermitize, svdCounterMat, Matrix.trace, Matrix.diag,
    Fin.sum_univ_two, Matrix.add_apply, Matrix.conjTranspose_apply,
    Matrix.smul_apply] at h01

/-- C1 amended: the direct (sparse and dense), iterative and power paths
Hermitize the reshaped solution by averaging it with its conjugate transpose
(the power path after dividing by the trace), the eigen path Hermitizes and
then divides by the trace, and the SVD path only divides by the trace without
Hermitizing.  Consequently the direct, iterative and power outputs are
Hermitian, the eigen and power outputs have trace 1 whenever the relevant
trace is nonzero, and the SVD output has trace 1 but equals the raw reshaped
null vector up to scaling. -/
theorem C1_amended {n : ℕ} (X : Matrix (Fin n) (Fin n) ℚ) (h : X.trace ≠ 0) :
    steadystate_direct_post X = hermitize X ∧
    (steadystate_direct_post X)ᴴ = steadystate_direct_post X ∧
    (steadystate_iterative_post X)ᴴ = steadystate_iterative_post X ∧
    steadystate_eigen_post X = (hermitize X).trace⁻¹ • hermitize X ∧
    (steadystate_eigen_post X).trace = 1 ∧
    steadystate_svd_post X = X.trace⁻¹ • X ∧
    (steadystate_svd_post X).trace = 1 ∧
    (steadystate_power_post X)ᴴ = steadystate_power_post X ∧
    (steadystate_power_post X).trace = 1 := by
  have htr : (hermitize X).trace = X.trace := by
    simp [hermitize, Matrix.trace_smul, Matrix.trace_add, Matrix.trace_conjTranspose]
    ring
  have herm_symm : ∀ Y : Matrix (Fin n) (Fin n) ℚ,
      ((2⁻¹ : ℚ) • (Y + Yᴴ))ᴴ = (2⁻¹ : ℚ) • (Y + Yᴴ) := by
    intro Y
    ext i j
    simp [Matrix.conjTranspose_apply, Matrix.smul_apply, Matrix.add_apply]
    ring
  refine ⟨rfl, herm_symm X, herm_symm X, rfl, ?_, rfl, ?_, ?_, ?_⟩
  · have : (hermitize X).trace ≠ 0 := by rw [htr]; exact h
    simp [steadystate_eigen_post, hermitize, Matrix.trace_smul] at this ⊢
    field_simp
  · simp [steadystate_svd_post, Matrix.trace_smul]
    field_simp
  · exact herm_symm _
  · have hd : ((X.trace⁻¹ • X : Matrix (Fin n) (Fin n) ℚ)).trace = 1 := by
      simp [Matrix.trace_smul]
      field_simp
    have hdc : ((X.trace⁻¹ • X : Matrix (Fin n) (Fin n) ℚ))ᴴ.trace = 1 := by
      rw [Matrix.trace_conjTranspose, hd]; rfl
    simp [steadystate_power_post, Matrix.trace_smul, Matrix.trace_add,
      Matrix.trace_conjTranspose] at hd ⊢
    rw [hd]
    norm_num

/-- C1 amended witness at a concrete trace-1 matrix. -/
theorem C1_amended_witness :
    ((Matrix.of ![![(1 : ℚ)]] : Matrix (Fin 1) (Fin 1) ℚ).trace ≠ 0) ∧
    ((steadystate_svd_post (Matrix.of ![![(1 : ℚ)]])).trace = 1) := by
  have h : (Matrix.of ![![(1 : ℚ)]] : Matrix (Fin 1) (Fin 1) ℚ).trace ≠ 0 := by
    simp [Matrix.trace, Matrix.diag]
  exact ⟨h, (C1_amended (Matrix.of ![![(1 : ℚ)]]) h).2.2.2.2.2.2.1⟩

/-! ## Default weight derivation (claim C2)

When the caller supplies no `weight`, `steadystate` (line 223) and
`build_preconditioner` (line 893) both run
`ss_args['weight'] = np.mean(np.abs(A.data.data.max()))`.
`A.data.data` is the array of stored (nonzero) entries; `.max()` reduces it to
its single largest element, `np.abs` takes that one element's absolute value,
and `np.mean` of a scalar is the scalar — so the weight is the absolute value
of the largest stored entry, not the mean of the absolute values.  The model
takes the list of stored entries, real-valued (the real special case of the
complex entry array, on which numpy's ordering is the usual one). -/

/-- Weight actually computed by the code (line 223): absolute value of the
maximum stored entry (`np.mean(np.abs(A.data.data.max()))`). -/
def steadystate_weight_code (entries : List ℚ) : ℚ :=
  match entries with
  | [] => 0
  | e :: es => |es.foldl max e|

/-- Weight as the claim and the docstring of `steadystate` (lines 134-137)
describe it: the mean of the absolute values of the stored entries. -/
def steadystate_weight_doc (entries : List ℚ) : ℚ :=
  (entries.map (fun e => |e|)).sum / entries.length

/-- C2 code bug: for a generator whose stored entries are `[1, 3]` the
documented weight (mean absolute value) is 2, but the code computes the
absolute value of the maximum entry, 3. -/
theorem C2_code_bug :
    steadystate_weight_code [1, 3] = 3 ∧
    steadystate_weight_doc [1, 3] = 2 ∧
    steadystate_weight_code [1, 3] ≠ steadystate_weight_doc [1, 3] := by
  refine ⟨?_, ?_, ?_⟩ <;> norm_num [steadystate_weight_code, steadystate_weight_doc]

/-! ## Inner tolerance of the Krylov-accelerated power variants (claim C5)

Line 752 reads `_tol = np.max(ss_args['tol']/10, 1e-15)`.  The second
positional argument of `np.max` is the reduction `axis`, not a second value to
compare, so the reduction over the zero-dimensional array `tol/10` simply
returns `tol/10`; the intended floor of 1e-15 is never applied
(`np.maximum` was needed). -/

/-- Inner solve tolerance the code effectively uses for power-gmres,
power-lgmres and power-bicgstab (line 752): `tol/10` with no floor. -/
def power_inner_tol_code (tol : ℚ) : ℚ := tol / 10

/-- Inner solve tolerance as the spec states it: `max(tol/10, 1e-15)`. -/
def power_inner_tol_spec (tol : ℚ) : ℚ := max (tol / 10) (1 / 10 ^ 15)

/-- C5 code bug: at a requested tolerance of 1e-16 the claim's inner tolerance
is the floor 1e-15, but the code's inner tolerance is 1e-17 — the floor in
`np.max(tol/10, 1e-15)` is parsed as the axis argument and never applied. -/
theorem C5_code_bug :
    power_inner_tol_code (1 / 10 ^ 16) = 1 / 10 ^ 17 ∧
    power_inner_tol_spec (1 / 10 ^ 16) = 1 / 10 ^ 15 ∧
    power_inner_tol_code (1 / 10 ^ 16) ≠ power_inner_tol_spec (1 / 10 ^ 16) := by
  refine ⟨by norm_num [power_inner_tol_code], ?_, ?_⟩ <;>
    norm_num [power_inner_tol_code, power_inner_tol_spec]

/-! ## pseudo_inverse method dispatch (claims C10 and part of C9)

`pseudo_inverse` (lines 1053-1057) selects `_pseudo_inverse_sparse` or
`_pseudo_inverse_dense`; on the dense branch the default method string
`splu` (a sparse-only strategy) is first remapped to `direct`.  The
dispatchers below return a tag naming the computation that runs, or the
ValueError message of the fallthrough branch. -/

/-- Method dispatch inside `_pseudo_inverse_dense` (lines 917-943). -/
def pseudo_inverse_dense_dispatch (method : String) : Except String String :=
  if method = "direct" then .ok "dense-direct"
  else if method = "numpy" then .ok "dense-numpy"
  else if method = "scipy" then .ok "dense-scipy"
  else if method = "scipy2" then .ok "dense-scipy2"
  else .error ("Unsupported method " ++ method ++ ". Use direct or numpy")

/-- Method dispatch inside `_pseudo_inverse_sparse` (lines 971-988). -/
def pseudo_inverse_sparse_dispatch (method : String) : Except String String :=
  if method = "spsolve" then .ok "sparse-spsolve"
  else if method = "splu" then .ok "sparse-splu"
  else if method = "spilu" then .ok "sparse-spilu"
  else .error ("unsupported method " ++ method)

/-- Top-level dispatch of `pseudo_inverse` (lines 1053-1057), including the
silent remap `method = method if method != splu else direct` on the dense
branch. -/
def pseudo_inverse_dispatch (sparse : Bool) (method : String) : Except String String :=
  if sparse then pseudo_inverse_sparse_dispatch method
  else pseudo_inverse_dense_dispatch (if method ≠ "splu" then method else "direct")

/-- C10: calling pseudo_inverse with sparse=False and the default method splu
does not fail — splu is silently remapped to direct and the dense
restricted-inverse computation runs; without the remap the dense dispatcher
would reject splu. -/
theorem C10_confirmed :
    pseudo_inverse_dispatch false "splu" = .ok "dense-direct" ∧
    pseudo_inverse_dense_dispatch "splu" =
      .error "Unsupported method splu. Use direct or numpy" := by
  constructor <;> rfl

/-! ## Trace-constraint conditioning for LU-based solves (claim C3)

`_steadystate_LU_liouvillian` (line 274) conditions the N = n² Liouvillian by
`L = L.data.tocsc() + csc_matrix((weight*ones(n), (zeros(n), [nn*(n+1) for nn
in range(n)])), shape=(n**2, n**2))` — it ADDS weight entries at row 0,
columns nn*(n+1), to the matrix.  `_steadystate_direct_dense` (line 412)
instead OVERWRITES row 0: `L[0, :] = np.diag(weight*ones(n)).reshape((1,
n**2))`; the row-major reshape of the diagonal matrix puts weight exactly at
the columns j with j = k*(n+1), k < n, and 0 elsewhere. -/

/-- The trace-constraint pattern: weight at row 0, columns k*(n+1) for k < n,
zero elsewhere (both paths use this same column pattern). -/
def traceConstraintMat (n : ℕ) (w : ℚ) : Matrix (Fin (n*n)) (Fin (n*n)) ℚ :=
  Matrix.of fun i j =>
    if i.val = 0 ∧ ∃ k ∈ Finset.range n, j.val = k * (n + 1) then w else 0

/-- Sparse conditioning of `_steadystate_LU_liouvillian` (line 274): the
constraint entries are added to the Liouvillian. -/
def steadystate_LU_liouvillian_cond (n : ℕ) (L : Matrix (Fin (n*n)) (Fin (n*n)) ℚ)
    (w : ℚ) : Matrix (Fin (n*n)) (Fin (n*n)) ℚ :=
  L + traceConstraintMat n w

/-- Dense conditioning of `_steadystate_direct_dense` (line 412): row 0 is
overwritten with the reshaped diagonal pattern, other rows kept. -/
def steadystate_direct_dense_cond (n : ℕ) (L : Matrix (Fin (n*n)) (Fin (n*n)) ℚ)
    (w : ℚ) : Matrix (Fin (n*n)) (Fin (n*n)) ℚ :=
  Matrix.of fun i j =>
    if i.val = 0 then
      (if ∃ k ∈ Finset.range n, j.val = k * (n + 1) then w else 0)
    else L i j

/-- A generator with a nonzero entry in row 0 at a non-constraint column,
refuting the overwrite reading of the sparse conditioning. -/
def C3badL : Matrix (Fin (2*2)) (Fin (2*2)) ℚ :=
  Matrix.of fun i j => if i.val = 0 ∧ j.val = 1 then 5 else 0

/-- C3 counterexample: for a generator with entry 5 at position (0, 1) and
weight 1, the sparse-path conditioned matrix keeps the original entry 5 in the
constraint row (column 1 is not a constraint column), so the constraint row
does not contain exactly the weight entries of the trace constraint. -/
theorem C3_counterexample :
    ¬ (∀ j : Fin (2*2), steadystate_LU_liouvillian_cond 2 C3badL 1 ⟨0, by norm_num⟩ j
        = traceConstraintMat 2 1 ⟨0, by norm_num⟩ j) := by
  intro h
  have h1 := h ⟨1, by norm_num⟩
  simp [steadystate_LU_liouvillian_cond, traceConstraintMat, C3badL,
    Matrix.add_apply] at h1

/-- C3 amended: only the dense path overwrites the constraint row — its row 0
is exactly the trace-constraint pattern regardless of the generator.  The
sparse path instead adds the constraint entries to the generator, so its
constraint row is the original row plus the weight pattern; acting on a
vector, the conditioned row 0 produces the original row-0 value plus weight
times the sum of the vector entries at the constraint columns (the diagonal
entries of the reshaped density matrix, i.e. its trace). -/
theorem C3_amended {n : ℕ} (hn : 0 < n) (L : Matrix (Fin (n*n)) (Fin (n*n)) ℚ)
    (w : ℚ) (v : Fin (n*n) → ℚ) :
    (∀ j, steadystate_direct_dense_cond n L w ⟨0, Nat.mul_pos hn hn⟩ j
        = traceConstraintMat n w ⟨0, Nat.mul_pos hn hn⟩ j) ∧
    (∀ i j, steadystate_LU_liouvillian_cond n L w i j
        = L i j + traceConstraintMat n w i j) ∧
    (steadystate_LU_liouvillian_cond n L w).mulVec v ⟨0, Nat.mul_pos hn hn⟩
      = L.mulVec v ⟨0, Nat.mul_pos hn hn⟩
        + w * ∑ j ∈ Finset.univ.filter
            (fun j : Fin (n*n) => ∃ k ∈ Finset.range n, j.val = k * (n + 1)), v j := by
  refine ⟨?_, ?_, ?_⟩
  · intro j
    simp [steadystate_direct_dense_cond, traceConstraintMat]
  · intro i j
    simp [steadystate_LU_liouvillian_cond, Matrix.add_apply]
  · rw [steadystate_LU_liouvillian_cond, Matrix.add_mulVec, Pi.add_apply]
    congr 1
    have hT : (traceConstraintMat n w).mulVec v ⟨0, Nat.mul_pos hn hn⟩
        = ∑ j : Fin (n*n),
            (if ∃ k ∈ Finset.range n, j.val = k * (n + 1) then w else 0) * v j := by
      simp [Matrix.mulVec, Matrix.dotProduct, traceConstraintMat]
    rw [hT, Finset.mul_sum, Finset.sum_filter]
    exact Finset.sum_congr rfl (fun j _ => by split <;> simp)

/-- C3 amended witness at n = 1, the zero generator, weight 1 and the all-ones
vector. -/
theorem C3_amended_witness :
    (0 < 1) ∧
    (∀ i j, steadystate_LU_liouvillian_cond 1 0 1 i j
        = (0 : Matrix (Fin (1*1)) (Fin (1*1)) ℚ) i j + traceConstraintMat 1 1 i j) :=
  ⟨by norm_num, (C3_amended (by norm_num) 0 1 (fun _ => 1)).2.1⟩

/-! ## Permutation pipeline around the solvers (claim C4)

`sp_permute(L, perm, [], ...)` applies the WBM permutation to rows only;
`sp_permute(L, perm2, perm2, ...)` applies the RCM permutation symmetrically.
Vectors are permuted with numpy fancy indexing, `b[perm][i] = b[perm[i]]`,
and `rev_perm = np.argsort(perm2)` is the inverse permutation, so
`v[rev_perm][i] = v[perm2⁻¹(i)]`. -/

/-- Numpy fancy indexing of a vector by a permutation: `b[p][i] = b[p[i]]`. -/
def applyPerm {N : ℕ} (p : Equiv.Perm (Fin N)) (v : Fin N → ℚ) : Fin N → ℚ :=
  fun i => v (p i)

/-- Right-hand-side permutation in `_steadystate_direct_sparse` (lines 345-348)
and `_steadystate_iterative` (lines 543-546): the WBM permutation is applied
first when use_wbm is on, then the RCM permutation when use_rcm is on. -/
def steadystate_rhs_permute {N : ℕ} (use_wbm use_rcm : Bool)
    (pw pr : Equiv.Perm (Fin N)) (b : Fin N → ℚ) : Fin N → ℚ :=
  let b1 := if use_wbm then applyPerm pw b else b
  if use_rcm then applyPerm pr b1 else b1

/-- Solution un-permutation in `_steadystate_direct_sparse` (lines 387-388):
`if (not ss_args[use_umfpack]) and ss_args[use_rcm]: v = v[rev_perm]` — the
inverse RCM permutation is applied only on the non-umfpack path. -/
def steadystate_direct_sparse_unpermute {N : ℕ} (use_umfpack use_rcm : Bool)
    (pr : Equiv.Perm (Fin N)) (v : Fin N → ℚ) : Fin N → ℚ :=
  if !use_umfpack && use_rcm then applyPerm pr.symm v else v

/-- Initial-guess handling in `_steadystate_iterative` (lines 559-571):
`ss_args[x0]` is handed to the Krylov solver exactly as the caller supplied
it; no permutation is applied to it anywhere in the function. -/
def steadystate_iterative_x0_pass {N : ℕ} (x0 : Fin N → ℚ) : Fin N → ℚ := x0

/-- Solution un-permutation as claim C4 states it: whenever fill-reducing
reordering is enabled the inverse permutation is applied, in every
configuration including the umfpack variant. -/
def claim_solution_unpermute {N : ℕ} (use_rcm : Bool) (pr : Equiv.Perm (Fin N))
    (v : Fin N → ℚ) : Fin N → ℚ :=
  if use_rcm then applyPerm pr.symm v else v

/-- Initial-guess permutation as claim C4 states it: dominance permutation
first, fill-reducing permutation second, before the guess reaches the
solver. -/
def claim_guess_permute {N : ℕ} (use_wbm use_rcm : Bool)
    (pw pr : Equiv.Perm (Fin N)) (x0 : Fin N → ℚ) : Fin N → ℚ :=
  let x1 := if use_wbm then applyPerm pw x0 else x0
  if use_rcm then applyPerm pr x1 else x1

/-- The vector (1, 0) used to exhibit the permutation mismatches. -/
def C4vec : Fin 2 → ℚ := fun i => if i = 0 then 1 else 0

/-- C4 counterexample: with RCM enabled and the swap permutation on two
indices, (i) on the umfpack sparse-direct path the code returns the solution
without un-permuting it, while the claim requires the inverse permutation, and
(ii) the iterative path passes the caller-supplied initial guess to the solver
unpermuted, while the claim requires it to be permuted. -/
theorem C4_counterexample :
    steadystate_direct_sparse_unpermute true true (Equiv.swap 0 1) C4vec
      ≠ claim_solution_unpermute true (Equiv.swap 0 1) C4vec ∧
    steadystate_iterative_x0_pass C4vec
      ≠ claim_guess_permute false true 1 (Equiv.swap 0 1) C4vec := by
  constructor
  · intro h
    have h0 := congrFun h 0
    simp [steadystate_direct_sparse_unpermute, claim_solution_unpermute,
      applyPerm, C4vec, Equiv.swap_apply_left] at h0
  · intro h
    have h0 := congrFun h 0
    simp [steadystate_iterative_x0_pass, claim_guess_permute,
      applyPerm, C4vec, Equiv.swap_apply_left] at h0

/-- C4 amended: the right-hand side does get the dominance permutation first
and the fill-reducing permutation second; on the non-umfpack direct-sparse
path the solution is un-permuted by the inverse RCM permutation (round-trip
with the RCM-permuted basis is the identity); but on the umfpack variant the
solution is returned without any un-permutation, and the iterative path
passes the caller-supplied initial guess to the solver unchanged. -/
theorem C4_amended {N : ℕ} (pw pr : Equiv.Perm (Fin N)) (b v x0 : Fin N → ℚ) :
    steadystate_rhs_permute true true pw pr b = applyPerm pr (applyPerm pw b) ∧
    steadystate_rhs_permute true false pw pr b = applyPerm pw b ∧
    steadystate_direct_sparse_unpermute false true pr (applyPerm pr v) = v ∧
    steadystate_direct_sparse_unpermute true true pr v = v ∧
    steadystate_iterative_x0_pass x0 = x0 := by
  refine ⟨rfl, rfl, ?_, rfl, rfl⟩
  funext i
  simp [steadystate_direct_sparse_unpermute, applyPerm]

/-! ## Power-iteration convergence loop (claim C6)

`_steadystate_power` (lines 751-776) runs
`while (la.norm(L * v, np.inf) > tol) and (it < maxiter): v = refine(v);
v = v / la.norm(v, np.inf); it += 1` followed by
`if it >= maxiter: raise`.  The refinement (LU solve or inner Krylov solve)
composed with the infinity-norm rescale is the abstract step function, and
`res v` models `la.norm(L * v, inf)`; both are external numeric primitives. -/

/-- The while loop of `_steadystate_power` (line 753): the remaining fuel is
maxiter minus the current iteration count, and the loop continues while the
residual exceeds the tolerance and fuel remains; it returns the final
iteration count and iterate. -/
def power_loop_go {V : Type} (res : V → ℚ) (step : V → V) (tol : ℚ) :
    ℕ → V → ℕ → ℕ × V
  | fuel, v, it =>
    if res v ≤ tol then (it, v)
    else
      match fuel with
      | 0 => (it, v)
      | fuel + 1 => power_loop_go res step tol fuel (step v) (it + 1)

/-- The power solver outcome (lines 751-776): run the loop with initial count
0, then `if it >= maxiter: raise` the convergence failure, else return the
final iterate. -/
def steadystate_power_solve {V : Type} (res : V → ℚ) (step : V → V) (tol : ℚ)
    (maxiter : ℕ) (v0 : V) : Except String V :=
  let r := power_loop_go res step tol maxiter v0 0
  if maxiter ≤ r.1 then
    .error "Failed to find steady state after maxiter iterations"
  else .ok r.2

lemma power_loop_go_fst_le {V : Type} (res : V → ℚ) (step : V → V) (tol : ℚ) :
    ∀ (fuel : ℕ) (v : V) (it : ℕ),
      (power_loop_go res step tol fuel v it).1 ≤ it + fuel := by
  intro fuel
  induction fuel with
  | zero =>
    intro v it
    rw [power_loop_go]
    split <;> simp
  | succ f ih =>
    intro v it
    rw [power_loop_go]
    split
    · simp
    · calc (power_loop_go res step tol f (step v) (it + 1)).1
          ≤ (it + 1) + f := ih (step v) (it + 1)
        _ = it + (f + 1) := by omega

lemma power_loop_go_exhaust_iff {V : Type} (res : V → ℚ) (step : V → V) (tol : ℚ) :
    ∀ (fuel : ℕ) (v : V) (it : ℕ),
      (power_loop_go res step tol fuel v it).1 = it + fuel ↔
        ∀ k < fuel, tol < res (step^[k] v) := by
  intro fuel
  induction fuel with
  | zero =>
    intro v it
    rw [power_loop_go]
    split <;> simp
  | succ f ih =>
    intro v it
    rw [power_loop_go]
    split
    · constructor
      · intro h; omega
      · intro h
        exact absurd (h 0 (Nat.succ_pos f)) (by simpa using not_lt.mpr (by assumption))
    · have hres : tol < res v := by
        rename_i hr
        exact lt_of_not_ge (fun hle => hr hle)
      constructor
      · intro h k hk
        cases k with
        | zero => simpa using hres
        | succ k =>
          have hk' : k < f := by omega
          have := (ih (step v) (it + 1)).mp (by omega) k hk'
          simpa [Function.iterate_succ_apply] using this
      · intro h
        have : ∀ k < f, tol < res (step^[k] (step v)) := by
          intro k hk
          have := h (k + 1) (by omega)
          simpa [Function.iterate_succ_apply] using this
        have := (ih (step v) (it + 1)).mpr this
        omega

/-- C6 counterexample: with tolerance 0, budget maxiter = 1, initial residual
1 and a refinement step that reaches residual 0 immediately, the iterate
satisfies the convergence test within one iteration (the budget), yet the
solver raises the convergence failure instead of succeeding, because the
post-loop check `it >= maxiter` cannot distinguish exhaustion from
convergence at the final allowed iteration. -/
theorem C6_counterexample :
    ((fun q : ℚ => q) ((fun _ : ℚ => (0 : ℚ))^[1] 1) ≤ 0) ∧
    steadystate_power_solve (fun q : ℚ => q) (fun _ : ℚ => (0 : ℚ)) 0 1 1
      = .error "Failed to find steady state after maxiter iterations" := by
  constructor
  · simp
  · rfl

/-- C6 amended: the power solver succeeds exactly when the residual drops to
the tolerance in strictly fewer than maxiter refinement steps; if convergence
first occurs at exactly the maxiter-th step (or never), it raises the
convergence failure even though the final iterate passes the test. -/
theorem C6_amended {V : Type} (res : V → ℚ) (step : V → V) (tol : ℚ)
    (maxiter : ℕ) (v0 : V) :
    (steadystate_power_solve res step tol maxiter v0).isOk = true ↔
      ∃ k < maxiter, res (step^[k] v0) ≤ tol := by
  unfold steadystate_power_solve
  dsimp only
  have hle := power_loop_go_fst_le res step tol maxiter v0 0
  have hiff := power_loop_go_exhaust_iff res step tol maxiter v0 0
  simp only [zero_add] at hle hiff
  split
  · rename_i hge
    refine iff_of_false (by simp [Except.isOk, Except.toBool]) ?_
    rintro ⟨k, hk, hconv⟩
    have hall := hiff.mp (le_antisymm hle hge)
    exact absurd hconv (not_le.mpr (hall k hk))
  · rename_i hlt
    refine iff_of_true rfl ?_
    by_contra hnone
    push_neg at hnone
    have hall : ∀ k < maxiter, tol < res (step^[k] v0) := fun k hk =>
      lt_of_not_ge (fun hle2 => absurd hle2 (not_le.mpr (hnone k hk)))
    exact hlt (le_of_eq (hiff.mpr hall).symm)

/-! ## Iterative solver status-code handling (claim C7)

`_steadystate_iterative` (lines 583-598): the achieved residual
`la.norm(b - L*v)` is written into `info[residual_norm]` only when
`return_info` is set (lines 583-584); the default info dict carries None for
it.  A positive Krylov status raises with a message holding
`info[residual_norm]`; a negative status raises the fatal error with the
status code; status 0 falls through to the successful return. -/

/-- Errors the iterative path can raise: convergence failure carrying the
message's residual field (None when return_info was off), or the fatal
breakdown carrying the status code. -/
inductive IterSolverError where
  | convergence (residual : Option ℚ)
  | fatal (code : ℤ)
  deriving DecidableEq

/-- Post-solve status handling of `_steadystate_iterative` (lines 583-598). -/
def steadystate_iterative_dispatch {V : Type} (check : ℤ) (return_info : Bool)
    (residual : ℚ) (v : V) : Except IterSolverError V :=
  let residual_norm : Option ℚ := if return_info then some residual else none
  if 0 < check then .error (.convergence residual_norm)
  else if check < 0 then .error (.fatal check)
  else .ok v

/-- C7 counterexample: with the default return_info = False, a positive status
(here 1, achieved residual 5) raises a convergence error whose message carries
None rather than the achieved residual norm, because the residual is only
computed into the info dict when return_info is requested. -/
theorem C7_counterexample :
    steadystate_iterative_dispatch 1 false 5 (0 : ℚ)
      = .error (.convergence none) ∧
    steadystate_iterative_dispatch 1 false 5 (0 : ℚ)
      ≠ .error (.convergence (some 5)) := by
  constructor
  · rfl
  · intro h
    simp [steadystate_iterative_dispatch] at h

/-- C7 amended: the three-way status dispatch is as claimed — status 0
succeeds, positive status raises the convergence error and negative status
raises the fatal error — but the convergence error carries the achieved
residual norm only when return_info is set; otherwise it carries None. -/
theorem C7_amended {V : Type} (check : ℤ) (ri : Bool) (r : ℚ) (v : V) :
    ((steadystate_iterative_dispatch check ri r v).isOk = true ↔ check = 0) ∧
    (steadystate_iterative_dispatch check ri r v = .error (.convergence (some r)) ↔
      0 < check ∧ ri = true) ∧
    (steadystate_iterative_dispatch check ri r v = .error (.convergence none) ↔
      0 < check ∧ ri = false) ∧
    (∀ c : ℤ, steadystate_iterative_dispatch check ri r v = .error (.fatal c) ↔
      check < 0 ∧ c = check) := by
  unfold steadystate_iterative_dispatch
  rcases lt_trichotomy check 0 with hc | hc | hc
  · cases ri <;>
      simp [Except.isOk, Except.toBool, hc, not_lt.mpr (le_of_lt hc), hc.ne,
        and_comm, eq_comm]
  · subst hc
    cases ri <;> simp [Except.isOk, Except.toBool]
  · cases ri <;>
      simp [Except.isOk, Except.toBool, hc, not_lt.mpr (le_of_lt hc), hc.ne']

/-! ## Keyword-argument validation in steadystate (claim C8)

`steadystate` (lines 205-211) first copies the default argument dictionary,
then loops over the supplied keyword arguments: a key present in the defaults
is stored, the first key that is not raises immediately.  Only after this loop
does anything else run — the permc_spec adjustment, the Liouvillian build
(`_steadystate_setup`, line 218), the weight derivation and the solver
dispatch. -/

/-- The recognized configuration keys: the keys of
`_default_steadystate_args` (lines 78-84). -/
def steadystate_keys : List String :=
  ["method", "sparse", "use_rcm", "use_wbm", "use_umfpack", "weight",
   "use_precond", "all_states", "M", "x0", "drop_tol", "fill_factor",
   "diag_pivot_thresh", "maxiter", "tol", "permc_spec", "ILU_MILU",
   "restart", "return_info", "info"]

/-- The kwargs-validation loop (lines 206-211): the first unknown key raises. -/
def steadystate_validate_kwargs : List String → Except String Unit
  | [] => .ok ()
  | k :: ks =>
    if k ∈ steadystate_keys then steadystate_validate_kwargs ks
    else .error ("Invalid keyword argument " ++ k ++ " passed to steadystate.")

/-- Observable numeric work performed by a steadystate call: building the
Liouvillian matrix (line 218) and running the selected solver. -/
inductive SSEffect where
  | buildMatrix
  | solve
  deriving DecidableEq

/-- The call structure of `steadystate` as far as claim C8 needs it: validate
the keyword arguments, and only on success perform the matrix construction
and the solve; a validation failure produces the error with no effects. -/
def steadystate_call (kwargs : List String) : List SSEffect × Option String :=
  match steadystate_validate_kwargs kwargs with
  | .error e => ([], some e)
  | .ok _ => ([.buildMatrix, .solve], none)

lemma steadystate_validate_kwargs_error {kwargs : List String} {k : String}
    (hk : k ∈ kwargs) (hbad : k ∉ steadystate_keys) :
    ∃ e, steadystate_validate_kwargs kwargs = .error e := by
  induction kwargs with
  | nil => cases hk
  | cons a as ih =>
    rw [steadystate_validate_kwargs]
    by_cases ha : a ∈ steadystate_keys
    · rcases List.mem_cons.mp hk with rfl | hk2
      · exact absurd ha hbad
      · simpa [ha] using ih hk2
    · exact ⟨"Invalid keyword argument " ++ a ++ " passed to steadystate.",
        by simp [ha]⟩

/-- C8: a call to steadystate with an unrecognized keyword argument fails in
the validation loop before any matrix construction or numeric work — the
effect list is empty and the error is reported. -/
theorem C8_confirmed (kwargs : List String) (k : String)
    (hk : k ∈ kwargs) (hbad : k ∉ steadystate_keys) :
    (steadystate_call kwargs).1 = [] ∧ (steadystate_call kwargs).2.isSome = true := by
  obtain ⟨e, he⟩ := steadystate_validate_kwargs_error hk hbad
  simp [steadystate_call, he]

/-- C8 witness: the single unknown keyword frobnicate is rejected with no
effects performed. -/
theorem C8_confirmed_witness :
    ("frobnicate" ∈ ["frobnicate"]) ∧ ("frobnicate" ∉ steadystate_keys) ∧
    ((steadystate_call ["frobnicate"]).1 = [] ∧
      (steadystate_call ["frobnicate"]).2.isSome = true) :=
  ⟨by simp, by decide, C8_confirmed ["frobnicate"] "frobnicate" (by simp) (by decide)⟩

/-! ## Dense pseudo-inverse, direct method (claim C9)

`_pseudo_inverse_dense` with method direct (lines 917-930): `rho_vec` and
`tr_vec` are the vectorized steady state and vectorized identity;
`P = np.kron(np.transpose(rho_vec), tr_vec)` is the outer product
column(rho_vec)·row(tr_vec); `Q = I - P`; `LIQ = np.linalg.solve(L.full(), Q)`
and `R = np.dot(Q, LIQ)`.  The external dense solver `np.linalg.solve` is
modelled by an argument with the contract `L * solve L B = B`. -/

/-- The rank-one matrix `P = kron(transpose(rho_vec), tr_vec)` (line 925):
`P i j = rho_vec i * tr_vec j`. -/
def pseudo_inverse_P (N : ℕ) (rhoVec trVec : Fin N → ℚ) :
    Matrix (Fin N) (Fin N) ℚ :=
  Matrix.vecMulVec rhoVec trVec

/-- The complement projector `Q = I - P` (line 926). -/
def pseudo_inverse_Q (N : ℕ) (rhoVec trVec : Fin N → ℚ) :
    Matrix (Fin N) (Fin N) ℚ :=
  1 - pseudo_inverse_P N rhoVec trVec

/-- The direct dense pseudo-inverse (lines 917-930): `R = Q * solve(L, Q)`. -/
def pseudo_inverse_dense_direct (N : ℕ) (L : Matrix (Fin N) (Fin N) ℚ)
    (rhoVec trVec : Fin N → ℚ)
    (solve : Matrix (Fin N) (Fin N) ℚ → Matrix (Fin N) (Fin N) ℚ →
      Matrix (Fin N) (Fin N) ℚ) : Matrix (Fin N) (Fin N) ℚ :=
  let Q := pseudo_inverse_Q N rhoVec trVec
  let LIQ := solve L Q
  Q * LIQ

lemma pseudo_inverse_P_mul_P (N : ℕ) (rhoVec trVec : Fin N → ℚ)
    (htr : trVec ⬝ᵥ rhoVec = 1) :
    pseudo_inverse_P N rhoVec trVec * pseudo_inverse_P N rhoVec trVec
      = pseudo_inverse_P N rhoVec trVec := by
  ext i j
  simp only [pseudo_inverse_P, Matrix.mul_apply, Matrix.vecMulVec_apply]
  have : ∀ k, rhoVec i * trVec k * (rhoVec k * trVec j)
      = (trVec k * rhoVec k) * (rhoVec i * trVec j) := by intro k; ring
  rw [Finset.sum_congr rfl (fun k _ => this k), ← Finset.sum_mul]
  have hsum : ∑ k, trVec k * rhoVec k = 1 := htr
  rw [hsum, one_mul]

/-- C9: the dense direct pseudo-inverse returns `Q·X` where `X` solves
`L·X = Q`, with `Q = I - P` for the rank-one projector `P` built from the
vectorized steady state and the vectorized identity (trace) operator; when
the steady state has unit trace (`tr_vec ⬝ rho_vec = 1`), `P` and `Q` are
idempotent, i.e. genuine projectors. -/
theorem C9_confirmed (N : ℕ) (L : Matrix (Fin N) (Fin N) ℚ)
    (rhoVec trVec : Fin N → ℚ)
    (solve : Matrix (Fin N) (Fin N) ℚ → Matrix (Fin N) (Fin N) ℚ →
      Matrix (Fin N) (Fin N) ℚ)
    (hsolve : L * solve L (pseudo_inverse_Q N rhoVec trVec)
      = pseudo_inverse_Q N rhoVec trVec)
    (htr : trVec ⬝ᵥ rhoVec = 1) :
    (∃ X, L * X = pseudo_inverse_Q N rhoVec trVec ∧
      pseudo_inverse_dense_direct N L rhoVec trVec solve
        = pseudo_inverse_Q N rhoVec trVec * X) ∧
    pseudo_inverse_P N rhoVec trVec * pseudo_inverse_P N rhoVec trVec
      = pseudo_inverse_P N rhoVec trVec ∧
    pseudo_inverse_Q N rhoVec trVec * pseudo_inverse_Q N rhoVec trVec
      = pseudo_inverse_Q N rhoVec trVec := by
  have hP := pseudo_inverse_P_mul_P N rhoVec trVec htr
  refine ⟨⟨solve L (pseudo_inverse_Q N rhoVec trVec), hsolve, rfl⟩, hP, ?_⟩
  have hexp : pseudo_inverse_Q N rhoVec trVec * pseudo_inverse_Q N rhoVec trVec
      = 1 - pseudo_inverse_P N rhoVec trVec - pseudo_inverse_P N rhoVec trVec
        + pseudo_inverse_P N rhoVec trVec * pseudo_inverse_P N rhoVec trVec := by
    unfold pseudo_inverse_Q
    noncomm_ring
  rw [hexp, hP]
  unfold pseudo_inverse_Q
  abel

/-- C9 witness: N = 2, L the identity, steady-state vector (1, 0), trace
vector (1, 1), and the dense solver that returns its right-hand side. -/
theorem C9_confirmed_witness :
    ((1 : Matrix (Fin 2) (Fin 2) ℚ) *
        (fun _ B => B) (1 : Matrix (Fin 2) (Fin 2) ℚ)
          (pseudo_inverse_Q 2 ![1, 0] ![1, 1])
      = pseudo_inverse_Q 2 ![1, 0] ![1, 1]) ∧
    ((![1, 1] : Fin 2 → ℚ) ⬝ᵥ ![1, 0] = 1) ∧
    (pseudo_inverse_Q 2 ![1, 0] ![1, 1] * pseudo_inverse_Q 2 ![1, 0] ![1, 1]
      = pseudo_inverse_Q 2 ![1, 0] ![1, 1]) := by
  have h1 : (1 : Matrix (Fin 2) (Fin 2) ℚ) *
      (fun _ B => B) (1 : Matrix (Fin 2) (Fin 2) ℚ)
        (pseudo_inverse_Q 2 ![1, 0] ![1, 1])
      = pseudo_inverse_Q 2 ![1, 0] ![1, 1] := Matrix.one_mul _
  have h2 : (![1, 1] : Fin 2 → ℚ) ⬝ᵥ ![1, 0] = 1 := by
    simp [Matrix.dotProduct, Fin.sum_univ_two]
  exact ⟨h1, h2, (C9_confirmed 2 1 ![1, 0] ![1, 1] (fun _ B => B) h1 h2).2.2⟩

end Steadystate
